import Mathlib

/-!
Shallow embedding of `photutils/profiles/core.py` (classes `ProfileBase`,
`CurveOfGrowth`, `RadialProfile`) over exact rationals.

Floating-point numbers are modelled by `ℚ` together with the value type
`FpVal`, which makes the IEEE special values produced by division by zero
and by the square root of a negative number explicit (`posinf`, `neginf`,
`nan`).  A square root whose exact value is irrational is represented by
the sign-tagged markers `irrPos`/`irrNeg`; all claims that touch the
square-root path are identities in which the same marker appears on both
sides, so no magnitude information is needed for them.

The external aperture-photometry primitive
(`CircularAperture.do_photometry` / `area_overlap`, out of scope per the
spec) is represented by its output: the per-region tables of fluxes, flux
errors and areas (`PhotTables`).  Everything downstream of those tables is
translated directly from the source.
-/

namespace Photutils

/-- Value of a floating-point computation: an exact rational, one of the
IEEE special values, or a marker for a finite irrational square root
(positive or negative). -/
inductive FpVal where
  | val (q : ℚ)
  | posinf
  | neginf
  | nan
  | irrPos
  | irrNeg
  deriving DecidableEq, Repr

/-- Finiteness of a floating-point value (`val` and the irrational markers
are finite; the infinities and `nan` are not). -/
def FpVal.isFinite : FpVal → Bool
  | .val _ => true
  | .irrPos => true
  | .irrNeg => true
  | _ => false

/-- Rational payload of a floating-point value, `0` for the non-`val`
cases. -/
def FpVal.toRat : FpVal → ℚ
  | .val q => q
  | _ => 0

/-- Division of two rationals with IEEE-754 semantics for a zero
denominator: `x / 0` is `+inf` for `x > 0`, `-inf` for `x < 0`, and `nan`
for `x = 0` (numpy emits a `RuntimeWarning` and returns exactly these). -/
def fpDivQ (x y : ℚ) : FpVal :=
  if y ≠ 0 then .val (x / y)
  else if 0 < x then .posinf
  else if x < 0 then .neginf
  else .nan

/-- Exact rational square root: `some r` with `r * r = q` when `q` is the
square of a rational, else `none`. -/
def ratSqrt (q : ℚ) : Option ℚ :=
  let sn := Nat.sqrt q.num.toNat
  let sd := Nat.sqrt q.den
  if (sn : ℤ) * sn = q.num ∧ sd * sd = q.den then some ((sn : ℚ) / (sd : ℚ))
  else none

/-- Model of `np.sqrt` on a rational: `nan` for a negative argument (numpy
returns `nan` with an invalid-value warning), the exact root when it is
rational, and the positive-irrational marker otherwise. -/
def fpSqrt (q : ℚ) : FpVal :=
  if q < 0 then .nan
  else
    match ratSqrt q with
    | some r => .val r
    | none => .irrPos

/-- Division of a floating-point value by a rational, extending `fpDivQ`.
The irrational markers keep only their sign (divided by `0` they give a
signed infinity, since they stand for nonzero finite values). -/
def fpDivF (x : FpVal) (y : ℚ) : FpVal :=
  match x with
  | .val q => fpDivQ q y
  | .posinf => if y < 0 then .neginf else .posinf
  | .neginf => if y < 0 then .posinf else .neginf
  | .nan => .nan
  | .irrPos => if y < 0 then .irrNeg else if y = 0 then .posinf else .irrPos
  | .irrNeg => if y < 0 then .irrPos else if y = 0 then .neginf else .irrNeg

/-- Model of `np.diff`: consecutive first differences, one element shorter
than the input. -/
def npDiff (l : List ℚ) : List ℚ :=
  List.zipWith (fun a b => b - a) l l.tail

/-- Model of `ndarray.max()` on a nonempty array (the empty case, on which
numpy raises, is given the junk value `0` and is excluded by hypotheses
wherever it matters). -/
def npMax : List ℚ → ℚ
  | [] => 0
  | h :: t => t.foldl max h

/-- Model of `ndarray.sum()`. -/
def npSum (l : List ℚ) : ℚ := l.sum

/-- Model of `np.linspace(a, b, num)` (with `endpoint=True`): `num` evenly
spaced samples from `a` to `b` inclusive. -/
def linspace (a b : ℚ) (num : ℕ) : List ℚ :=
  if num ≤ 1 then List.replicate num a
  else (List.range num).map fun (i : ℕ) => a + (i : ℚ) * ((b - a) / ((num - 1 : ℕ) : ℚ))

/-- Profile configuration: the scalar constructor arguments of
`ProfileBase` that the radius grid and the apertures depend on. -/
structure Config where
  xycen : ℚ × ℚ
  min_radius : ℚ
  max_radius : ℚ
  radius_step : ℚ
  deriving DecidableEq, Repr

/-- Validity of a configuration, as enforced by `ProfileBase.__init__`:
`min_radius ≥ 0`, `max_radius > min_radius`, `radius_step > 0`. -/
def Config.Valid (c : Config) : Prop :=
  0 ≤ c.min_radius ∧ c.min_radius < c.max_radius ∧ 0 < c.radius_step

instance (c : Config) : Decidable c.Valid := by
  unfold Config.Valid; infer_instance

/-- Number of whole radius steps,
`int(math.floor((max_radius - min_radius) / radius_step))`
(`ProfileBase.radius`). -/
def Config.nsteps (c : Config) : ℤ :=
  Int.floor ((c.max_radius - c.min_radius) / c.radius_step)

/-- The profile radius grid (`ProfileBase.radius`):
`np.linspace(min_radius, min_radius + nsteps * radius_step, nsteps + 1)`. -/
def Config.radius (c : Config) : List ℚ :=
  linspace c.min_radius (c.min_radius + (c.nsteps : ℚ) * c.radius_step)
    (c.nsteps + 1).toNat

/-- Number of whole steps of the radial-bin edge grid
(`RadialProfile._circular_radii`): the floor-steps rule applied to the
half-step-shifted bounds `(min_radius - step/2, max_radius + step/2)`. -/
def Config.cr_nsteps (c : Config) : ℤ :=
  Int.floor (((c.max_radius + c.radius_step / 2)
    - (c.min_radius - c.radius_step / 2)) / c.radius_step)

/-- The radial-bin edge radii (`RadialProfile._circular_radii`): the same
floor-steps rule as `ProfileBase.radius` applied to
`(min_radius - step/2, max_radius + step/2, step)`. -/
def Config.circularRadii (c : Config) : List ℚ :=
  linspace (c.min_radius - c.radius_step / 2)
    ((c.min_radius - c.radius_step / 2) + (c.cr_nsteps : ℚ) * c.radius_step)
    (c.cr_nsteps + 1).toNat

/-- Geometric region descriptors: `photutils.aperture.CircularAperture`
and `photutils.aperture.CircularAnnulus`, reduced to center and radii. -/
inductive Aperture where
  | circle (center : ℚ × ℚ) (r : ℚ)
  | annulus (center : ℚ × ℚ) (rin rout : ℚ)
  deriving DecidableEq, Repr

/-- Modelled from the spec: the constructor of
`photutils.aperture.CircularAnnulus` is not under `src/`; per spec §4.3
annulus construction fails (a `ValueError`, the `except` branch in
`RadialProfile.apertures`) exactly when the inner radius is non-positive. -/
def mkCircularAnnulus (xycen : ℚ × ℚ) (rin rout : ℚ) : Except String Aperture :=
  if rin ≤ 0 then Except.error "zero radius"
  else Except.ok (Aperture.annulus xycen rin rout)

/-- The annular apertures used to measure the radial profile
(`RadialProfile.apertures`): for each consecutive pair of
`_circular_radii`, try a `CircularAnnulus`; on failure (zero inner
radius) fall back to a full `CircularAperture` of the outer radius. -/
def RadialProfile.apertures (c : Config) : List Aperture :=
  (List.range (c.circularRadii.length - 1)).map fun i =>
    match mkCircularAnnulus c.xycen (c.circularRadii.getD i 0)
        (c.circularRadii.getD (i + 1) 0) with
    | Except.ok a => a
    | Except.error _ => Aperture.circle c.xycen (c.circularRadii.getD (i + 1) 0)

/-- The circular apertures used for the photometry
(`ProfileBase._circular_apertures`): a full circle per boundary radius,
`none` where the radius is non-positive. -/
def circularApertures (xycen : ℚ × ℚ) (radii : List ℚ) : List (Option Aperture) :=
  radii.map fun r => if r ≤ 0 then none else some (Aperture.circle xycen r)

/-- Output tables of `ProfileBase._photometry`: per-region fluxes, flux
errors and overlap areas.  The flux-error table is empty when no `error`
array was supplied. -/
structure PhotTables where
  fluxes : List ℚ
  fluxerrs : List ℚ
  areas : List ℚ
  deriving DecidableEq, Repr

/-- The accumulation loop of `ProfileBase._photometry`: a `none` aperture
contributes `(0, 0, 0)`; otherwise the external `measure` primitive
(`do_photometry` / `area_overlap`) is consulted.  Flux errors are
collected only when an `error` array was supplied. -/
def photometryLoop (measure : Aperture → ℚ × ℚ × ℚ) (errSupplied : Bool)
    (apers : List (Option Aperture)) : PhotTables :=
  apers.foldl
    (fun t ap =>
      match ap with
      | none =>
          { fluxes := t.fluxes ++ [0],
            fluxerrs := t.fluxerrs ++ (if errSupplied then [0] else []),
            areas := t.areas ++ [0] }
      | some a =>
          let m := measure a
          { fluxes := t.fluxes ++ [m.1],
            fluxerrs := t.fluxerrs ++ (if errSupplied then [m.2.1] else []),
            areas := t.areas ++ [m.2.2] })
    ⟨[], [], []⟩

/-- Annulus fluxes (`RadialProfile._flux`): `np.diff(self._photometry[0])`. -/
def RadialProfile.flux (p : PhotTables) : List ℚ := npDiff p.fluxes

/-- Annulus flux errors (`RadialProfile._fluxerr`):
`np.sqrt(np.diff(self._photometry[1] ** 2))`. -/
def RadialProfile.fluxerr (p : PhotTables) : List FpVal :=
  (npDiff (p.fluxerrs.map fun x => x ^ 2)).map fpSqrt

/-- Annulus areas (`RadialProfile.area`): `np.diff(self._photometry[2])`. -/
def RadialProfile.area (p : PhotTables) : List ℚ := npDiff p.areas

/-- The radial profile (`RadialProfile.profile`): `self._flux / self.area`
with the divide-by-zero `RuntimeWarning` suppressed (the division is total
and yields IEEE special values). -/
def RadialProfile.profile (p : PhotTables) : List FpVal :=
  List.zipWith fpDivQ (RadialProfile.flux p) (RadialProfile.area p)

/-- The radial profile errors (`RadialProfile.profile_error`): the raw
`_fluxerr` when no `error` array was supplied, else `_fluxerr / area`
with the same divide-by-zero suppression. -/
def RadialProfile.profile_error (errSupplied : Bool) (p : PhotTables) : List FpVal :=
  if errSupplied = false then RadialProfile.fluxerr p
  else List.zipWith fpDivF (RadialProfile.fluxerr p) (RadialProfile.area p)

/-- The curve-of-growth profile (`CurveOfGrowth.profile`): the raw flux
table. -/
def CurveOfGrowth.profile (p : PhotTables) : List ℚ := p.fluxes

/-- Argument validation of `ProfileBase.__init__`, over the data the
checks inspect: the shapes of `data`, `error` and `mask`, and the three
radius parameters.  Returns `ok` when construction succeeds and `error`
with the source's message when it raises `ValueError`.  `shapeMismatch`
is the condition `x is not None and x.shape != data.shape`. -/
def shapeMismatch (dataShape : ℕ × ℕ) : Option (ℕ × ℕ) → Prop
  | none => False
  | some s => s ≠ dataShape

instance (d : ℕ × ℕ) : (o : Option (ℕ × ℕ)) → Decidable (shapeMismatch d o)
  | none => isFalse fun h => h
  | some s => inferInstanceAs (Decidable (s ≠ d))

/-- Argument validation of `ProfileBase.__init__`, in source order over the
data the checks inspect. -/
def ProfileBase.init (dataShape : ℕ × ℕ) (errorShape maskShape : Option (ℕ × ℕ))
    (min_radius max_radius radius_step : ℚ) : Except String Unit :=
  if min_radius < 0 ∨ max_radius < 0 then
    Except.error "min_radius and max_radius must be >= 0"
  else if min_radius ≥ max_radius then
    Except.error "max_radius must be greater than min_radius"
  else if radius_step ≤ 0 then
    Except.error "radius_step must be > 0"
  else if shapeMismatch dataShape errorShape then
    Except.error "error must have the same same as data"
  else if shapeMismatch dataShape maskShape then
    Except.error "mask must have the same same as data"
  else Except.ok ()

/-- The cached pair mutated by `ProfileBase.normalize`: the `profile` and
`profile_error` arrays (here over plain rationals, the finite-valued
case — e.g. every `CurveOfGrowth`). -/
structure ProfState where
  profile : List ℚ
  profile_error : List ℚ
  deriving DecidableEq, Repr

/-- Outcome of `ProfileBase.normalize`: the new state, or the unchanged
state with an `AstropyUserWarning` emitted, or a raised `ValueError`. -/
inductive NormResult where
  | ok (s : ProfState)
  | warned (s : ProfState)
  | invalid (msg : String)
  deriving DecidableEq, Repr

/-- The `if/elif/else` ladder of `ProfileBase.normalize` that selects the
normalization constant: `profile.max()` for `'max'`, `profile.sum()` for
`'sum'`, a raised `ValueError` for anything else. -/
def normConstant (method : String) (s : ProfState) : Except String ℚ :=
  if method = "max" then Except.ok (npMax s.profile)
  else if method = "sum" then Except.ok (npSum s.profile)
  else Except.error "invalid method, must be \"peak\" or \"integral\""

/-- Model of `ProfileBase.normalize`: pick the normalization constant by
`method`; a zero constant emits an `AstropyUserWarning` and leaves the
state unchanged; otherwise both cached arrays are overwritten by the
originals divided by the constant. -/
def ProfileBase.normalize (method : String) (s : ProfState) : NormResult :=
  match normConstant method s with
  | Except.error msg => NormResult.invalid msg
  | Except.ok normalization =>
      if normalization = 0 then NormResult.warned s
      else
        NormResult.ok
          { profile := s.profile.map fun q => q / normalization,
            profile_error := s.profile_error.map fun q => q / normalization }

/-! Helper lemmas on list indexing and the numeric models. -/

theorem getD_tail {α : Type} (l : List α) (i : ℕ) (d : α) :
    l.tail.getD i d = l.getD (i + 1) d := by
  cases l with
  | nil => simp
  | cons a t => simp [List.getD_cons_succ]

theorem getD_zipWith {α β γ : Type} (f : α → β → γ) (l₁ : List α) (l₂ : List β)
    (i : ℕ) (d₁ : α) (d₂ : β) (d₃ : γ) (h₁ : i < l₁.length) (h₂ : i < l₂.length) :
    (List.zipWith f l₁ l₂).getD i d₃ = f (l₁.getD i d₁) (l₂.getD i d₂) := by
  rw [List.getD_eq_getElem _ _ (by rw [List.length_zipWith]; omega),
      List.getD_eq_getElem _ _ h₁, List.getD_eq_getElem _ _ h₂,
      List.getElem_zipWith]

theorem getD_map_of_lt {α β : Type} (f : α → β) (l : List α) (i : ℕ) (d : α) (d' : β)
    (h : i < l.length) :
    (l.map f).getD i d' = f (l.getD i d) := by
  rw [List.getD_eq_getElem _ _ (by simpa using h), List.getD_eq_getElem _ _ h,
      List.getElem_map]

theorem npDiff_length (l : List ℚ) : (npDiff l).length = l.length - 1 := by
  rw [npDiff, List.length_zipWith, List.length_tail]
  omega

theorem npDiff_getD (l : List ℚ) (i : ℕ) (h : i + 1 < l.length) :
    (npDiff l).getD i 0 = l.getD (i + 1) 0 - l.getD i 0 := by
  rw [npDiff, getD_zipWith _ _ _ i 0 0 0 (by omega) (by rw [List.length_tail]; omega),
      getD_tail]

theorem linspace_length (a b : ℚ) (num : ℕ) : (linspace a b num).length = num := by
  rw [linspace]
  split
  · rw [List.length_replicate]
  · rw [List.length_map, List.length_range]

theorem linspace_getD (a step : ℚ) (n i : ℕ) (h : i ≤ n) :
    (linspace a (a + (n : ℚ) * step) (n + 1)).getD i 0 = a + (i : ℚ) * step := by
  rcases Nat.eq_zero_or_pos n with hn | hn
  · subst hn
    have hi : i = 0 := by omega
    subst hi
    simp [linspace]
  · have hn1 : ¬ (n + 1 ≤ 1) := by omega
    rw [linspace, if_neg hn1,
        List.getD_eq_getElem _ _ (by rw [List.length_map, List.length_range]; omega)]
    simp only [List.getElem_map, List.getElem_range]
    have hnz : ((n : ℚ)) ≠ 0 := Nat.cast_ne_zero.mpr (by omega)
    have hsub : (n + 1 - 1 : ℕ) = n := by omega
    rw [hsub]
    have hb : a + (n : ℚ) * step - a = (n : ℚ) * step := by ring
    rw [hb, mul_div_cancel_left₀ _ hnz]

theorem nsteps_nonneg (c : Config) (h : c.Valid) : 0 ≤ c.nsteps := by
  obtain ⟨h0, hlt, hstep⟩ := h
  exact Int.floor_nonneg.mpr (le_of_lt (div_pos (by linarith) hstep))

theorem nsteps_cast (c : Config) (h : c.Valid) :
    ((c.nsteps.toNat : ℕ) : ℚ) = ((c.nsteps : ℤ) : ℚ) := by
  have := Int.toNat_of_nonneg (nsteps_nonneg c h)
  exact_mod_cast congrArg (fun z : ℤ => (z : ℚ)) this

theorem radius_length (c : Config) (h : c.Valid) :
    c.radius.length = c.nsteps.toNat + 1 := by
  rw [Config.radius, linspace_length]
  have := nsteps_nonneg c h
  omega

theorem radius_getD (c : Config) (h : c.Valid) (i : ℕ) (hi : i ≤ c.nsteps.toNat) :
    c.radius.getD i 0 = c.min_radius + (i : ℚ) * c.radius_step := by
  have h1 : (c.nsteps + 1).toNat = c.nsteps.toNat + 1 := by
    have := nsteps_nonneg c h
    omega
  have h2 : ((c.nsteps : ℤ) : ℚ) = ((c.nsteps.toNat : ℕ) : ℚ) :=
    (nsteps_cast c h).symm
  rw [Config.radius, h1, h2]
  exact linspace_getD c.min_radius c.radius_step c.nsteps.toNat i hi

theorem cr_nsteps_eq (c : Config) (h : c.Valid) : c.cr_nsteps = c.nsteps + 1 := by
  obtain ⟨h0, hlt, hstep⟩ := h
  have hne : c.radius_step ≠ 0 := ne_of_gt hstep
  rw [Config.cr_nsteps, Config.nsteps]
  have harg : (c.max_radius + c.radius_step / 2 - (c.min_radius - c.radius_step / 2))
      / c.radius_step
      = (c.max_radius - c.min_radius) / c.radius_step + 1 := by
    field_simp
    ring
  rw [harg, Int.floor_add_one]

theorem circularRadii_length (c : Config) (h : c.Valid) :
    c.circularRadii.length = c.nsteps.toNat + 2 := by
  rw [Config.circularRadii, linspace_length, cr_nsteps_eq c h]
  have := nsteps_nonneg c h
  omega

theorem circularRadii_getD (c : Config) (h : c.Valid) (i : ℕ)
    (hi : i ≤ c.nsteps.toNat + 1) :
    c.circularRadii.getD i 0
      = (c.min_radius - c.radius_step / 2) + (i : ℚ) * c.radius_step := by
  have hcr := cr_nsteps_eq c h
  have hn := nsteps_nonneg c h
  have h1 : (c.cr_nsteps + 1).toNat = (c.nsteps.toNat + 1) + 1 := by
    rw [hcr]; omega
  have h2 : ((c.cr_nsteps : ℤ) : ℚ) = (((c.nsteps.toNat + 1 : ℕ)) : ℚ) := by
    rw [hcr]
    push_cast
    rw [← nsteps_cast c h]
  rw [Config.circularRadii, h1, h2]
  exact linspace_getD (c.min_radius - c.radius_step / 2) c.radius_step
    (c.nsteps.toNat + 1) i hi

theorem npMax_map_div (l : List ℚ) (m : ℚ) (hm : 0 ≤ m) :
    npMax (l.map fun q => q / m) = npMax l / m := by
  cases l with
  | nil => simp [npMax]
  | cons a t =>
      rw [List.map_cons, npMax, npMax]
      induction t generalizing a with
      | nil => simp
      | cons b t ih =>
          rw [List.map_cons, List.foldl_cons, List.foldl_cons,
              max_div_div_right hm a b]
          exact ih (max a b)

theorem npSum_map_div (l : List ℚ) (m : ℚ) :
    npSum (l.map fun q => q / m) = npSum l / m := by
  induction l with
  | nil => simp [npSum]
  | cons a t ih =>
      simp only [npSum, List.map_cons, List.sum_cons] at ih ⊢
      rw [ih, add_div]

theorem fpDivQ_zero_not_finite (x : ℚ) : (fpDivQ x 0).isFinite = false := by
  rw [fpDivQ]
  split
  · simp_all
  · split
    · rfl
    · split
      · rfl
      · rfl

theorem radius_last_le (c : Config) (h : c.Valid) :
    c.min_radius + ((c.nsteps : ℤ) : ℚ) * c.radius_step ≤ c.max_radius := by
  obtain ⟨h0, hlt, hstep⟩ := h
  have hfl : ((c.nsteps : ℤ) : ℚ) ≤ (c.max_radius - c.min_radius) / c.radius_step :=
    Int.floor_le _
  have := (le_div_iff₀ hstep).mp hfl
  linarith

theorem profile_getD (p : PhotTables) (i : ℕ)
    (hf : i + 1 < p.fluxes.length) (ha : i + 1 < p.areas.length) :
    (RadialProfile.profile p).getD i FpVal.nan
      = fpDivQ (p.fluxes.getD (i + 1) 0 - p.fluxes.getD i 0)
          (p.areas.getD (i + 1) 0 - p.areas.getD i 0) := by
  have h1 : i < (RadialProfile.flux p).length := by
    rw [RadialProfile.flux, npDiff_length]; omega
  have h2 : i < (RadialProfile.area p).length := by
    rw [RadialProfile.area, npDiff_length]; omega
  rw [RadialProfile.profile, getD_zipWith _ _ _ i 0 0 _ h1 h2,
      RadialProfile.flux, RadialProfile.area, npDiff_getD _ _ hf, npDiff_getD _ _ ha]

theorem area_getD (p : PhotTables) (i : ℕ) (ha : i + 1 < p.areas.length) :
    (RadialProfile.area p).getD i 0
      = p.areas.getD (i + 1) 0 - p.areas.getD i 0 := by
  rw [RadialProfile.area, npDiff_getD _ _ ha]

theorem fluxerr_getD (p : PhotTables) (i : ℕ) (hf : i + 1 < p.fluxerrs.length) :
    (RadialProfile.fluxerr p).getD i FpVal.nan
      = fpSqrt (p.fluxerrs.getD (i + 1) 0 ^ 2 - p.fluxerrs.getD i 0 ^ 2) := by
  have hm : i + 1 < (p.fluxerrs.map fun x => x ^ 2).length := by
    rw [List.length_map]; exact hf
  rw [RadialProfile.fluxerr,
      getD_map_of_lt fpSqrt _ i 0 _ (by rw [npDiff_length, List.length_map]; omega),
      npDiff_getD _ _ hm,
      getD_map_of_lt _ _ (i + 1) 0 0 hf, getD_map_of_lt _ _ i 0 0 (by omega)]

theorem radial_apertures_getD (c : Config) (i : ℕ)
    (hi : i < c.circularRadii.length - 1) :
    (RadialProfile.apertures c).getD i (Aperture.circle (0, 0) 0)
      = if c.circularRadii.getD i 0 ≤ 0
        then Aperture.circle c.xycen (c.circularRadii.getD (i + 1) 0)
        else Aperture.annulus c.xycen (c.circularRadii.getD i 0)
          (c.circularRadii.getD (i + 1) 0) := by
  have hr : (List.range (c.circularRadii.length - 1)).getD i 0 = i := by
    rw [List.getD_eq_getElem (List.range (c.circularRadii.length - 1)) 0
          (by rw [List.length_range]; exact hi),
        List.getElem_range]
  rw [RadialProfile.apertures,
      getD_map_of_lt _ _ i 0 _ (by rw [List.length_range]; exact hi),
      hr, mkCircularAnnulus]
  by_cases hle : c.circularRadii.getD i 0 ≤ 0
  · rw [if_pos hle, if_pos hle]
  · rw [if_neg hle, if_neg hle]

theorem normalize_max_eq (s : ProfState) :
    ProfileBase.normalize "max" s
      = if npMax s.profile = 0 then NormResult.warned s
        else NormResult.ok
          { profile := s.profile.map fun q => q / npMax s.profile,
            profile_error := s.profile_error.map fun q => q / npMax s.profile } := by
  have hc : normConstant "max" s = Except.ok (npMax s.profile) := by
    rw [normConstant, if_pos rfl]
  rw [ProfileBase.normalize, hc]

theorem normalize_sum_eq (s : ProfState) :
    ProfileBase.normalize "sum" s
      = if npSum s.profile = 0 then NormResult.warned s
        else NormResult.ok
          { profile := s.profile.map fun q => q / npSum s.profile,
            profile_error := s.profile_error.map fun q => q / npSum s.profile } := by
  have hc : normConstant "sum" s = Except.ok (npSum s.profile) := by
    rw [normConstant, if_neg (by decide), if_pos rfl]
  rw [ProfileBase.normalize, hc]

theorem normalize_other_eq (method : String) (s : ProfState)
    (h1 : method ≠ "max") (h2 : method ≠ "sum") :
    ProfileBase.normalize method s
      = NormResult.invalid "invalid method, must be \"peak\" or \"integral\"" := by
  have hc : normConstant method s
      = Except.error "invalid method, must be \"peak\" or \"integral\"" := by
    rw [normConstant, if_neg h1, if_neg h2]
  rw [ProfileBase.normalize, hc]

theorem fpDivF_zero_not_finite (x : FpVal) : (fpDivF x 0).isFinite = false := by
  cases x with
  | val q => exact fpDivQ_zero_not_finite q
  | posinf => simp [fpDivF, FpVal.isFinite]
  | neginf => simp [fpDivF, FpVal.isFinite]
  | nan => rfl
  | irrPos => simp [fpDivF, FpVal.isFinite]
  | irrNeg => simp [fpDivF, FpVal.isFinite]

/-! Claim theorems. -/

/-- C3: for every valid configuration (`min_radius ≥ 0`,
`max_radius > min_radius`, `radius_step > 0`), the radius grid has exactly
`nsteps + 1` points where
`nsteps = floor((max_radius - min_radius) / radius_step)`, is strictly
increasing, starts at `min_radius`, has uniform spacing `radius_step`,
ends at `min_radius + nsteps * radius_step`, and its last element is
`≤ max_radius`. -/
theorem radius_grid_spec (c : Config) (h : c.Valid) :
    c.nsteps = Int.floor ((c.max_radius - c.min_radius) / c.radius_step) ∧
    c.radius.length = c.nsteps.toNat + 1 ∧
    c.radius.getD 0 0 = c.min_radius ∧
    (∀ i : ℕ, i < c.nsteps.toNat →
      c.radius.getD (i + 1) 0 - c.radius.getD i 0 = c.radius_step) ∧
    (∀ i j : ℕ, i < j → j < c.radius.length →
      c.radius.getD i 0 < c.radius.getD j 0) ∧
    c.radius.getD c.nsteps.toNat 0
      = c.min_radius + ((c.nsteps : ℤ) : ℚ) * c.radius_step ∧
    c.radius.getD c.nsteps.toNat 0 ≤ c.max_radius := by
  have hstep : 0 < c.radius_step := h.2.2
  have hlast : c.radius.getD c.nsteps.toNat 0
      = c.min_radius + ((c.nsteps : ℤ) : ℚ) * c.radius_step := by
    rw [radius_getD c h c.nsteps.toNat le_rfl, nsteps_cast c h]
  refine ⟨rfl, radius_length c h, ?_, ?_, ?_, hlast, ?_⟩
  · rw [radius_getD c h 0 (Nat.zero_le _)]
    norm_num
  · intro i hi
    rw [radius_getD c h i (by omega), radius_getD c h (i + 1) (by omega)]
    push_cast
    ring
  · intro i j hij hj
    rw [radius_length c h] at hj
    rw [radius_getD c h i (by omega), radius_getD c h j (by omega)]
    have hcast : (i : ℚ) < (j : ℚ) := by exact_mod_cast hij
    nlinarith
  · rw [hlast]
    exact radius_last_le c h

/-- C3 witness: the theorem applied to the concrete configuration
`(min_radius, max_radius, radius_step) = (0, 5/2, 1)`. -/
theorem radius_grid_spec_witness :
    (Config.mk (0, 0) 0 (5 / 2) 1).Valid ∧
    ((Config.mk (0, 0) 0 (5 / 2) 1).nsteps
        = Int.floor (((Config.mk (0, 0) 0 (5 / 2) 1).max_radius
          - (Config.mk (0, 0) 0 (5 / 2) 1).min_radius)
          / (Config.mk (0, 0) 0 (5 / 2) 1).radius_step) ∧
      (Config.mk (0, 0) 0 (5 / 2) 1).radius.length
        = (Config.mk (0, 0) 0 (5 / 2) 1).nsteps.toNat + 1 ∧
      (Config.mk (0, 0) 0 (5 / 2) 1).radius.getD 0 0
        = (Config.mk (0, 0) 0 (5 / 2) 1).min_radius ∧
      (∀ i : ℕ, i < (Config.mk (0, 0) 0 (5 / 2) 1).nsteps.toNat →
        (Config.mk (0, 0) 0 (5 / 2) 1).radius.getD (i + 1) 0
          - (Config.mk (0, 0) 0 (5 / 2) 1).radius.getD i 0
          = (Config.mk (0, 0) 0 (5 / 2) 1).radius_step) ∧
      (∀ i j : ℕ, i < j → j < (Config.mk (0, 0) 0 (5 / 2) 1).radius.length →
        (Config.mk (0, 0) 0 (5 / 2) 1).radius.getD i 0
          < (Config.mk (0, 0) 0 (5 / 2) 1).radius.getD j 0) ∧
      (Config.mk (0, 0) 0 (5 / 2) 1).radius.getD
          (Config.mk (0, 0) 0 (5 / 2) 1).nsteps.toNat 0
        = (Config.mk (0, 0) 0 (5 / 2) 1).min_radius
          + (((Config.mk (0, 0) 0 (5 / 2) 1).nsteps : ℤ) : ℚ)
            * (Config.mk (0, 0) 0 (5 / 2) 1).radius_step ∧
      (Config.mk (0, 0) 0 (5 / 2) 1).radius.getD
          (Config.mk (0, 0) 0 (5 / 2) 1).nsteps.toNat 0
        ≤ (Config.mk (0, 0) 0 (5 / 2) 1).max_radius) :=
  ⟨by constructor <;> norm_num,
    radius_grid_spec (Config.mk (0, 0) 0 (5 / 2) 1) (by constructor <;> norm_num)⟩

/-- C4: for every valid configuration, the Annular boundary-radius grid
(`RadialProfile._circular_radii`, the floor-steps rule applied to
`(min_radius - step/2, max_radius + step/2, step)`) has exactly one more
point than the radius grid, and each radius-grid value is the midpoint of
the corresponding consecutive boundary pair. -/
theorem circular_radii_midpoint_spec (c : Config) (h : c.Valid) :
    c.circularRadii.length = c.radius.length + 1 ∧
    (∀ i : ℕ, i < c.radius.length →
      (c.circularRadii.getD i 0 + c.circularRadii.getD (i + 1) 0) / 2
        = c.radius.getD i 0) := by
  constructor
  · rw [circularRadii_length c h, radius_length c h]
  · intro i hi
    rw [radius_length c h] at hi
    rw [radius_getD c h i (by omega), circularRadii_getD c h i (by omega),
        circularRadii_getD c h (i + 1) (by omega)]
    push_cast
    ring

/-- C4 witness: the theorem applied to the concrete configuration
`(min_radius, max_radius, radius_step) = (1/2, 3, 1)`. -/
theorem circular_radii_midpoint_spec_witness :
    (Config.mk (0, 0) (1 / 2) 3 1).Valid ∧
    ((Config.mk (0, 0) (1 / 2) 3 1).circularRadii.length
        = (Config.mk (0, 0) (1 / 2) 3 1).radius.length + 1 ∧
      (∀ i : ℕ, i < (Config.mk (0, 0) (1 / 2) 3 1).radius.length →
        ((Config.mk (0, 0) (1 / 2) 3 1).circularRadii.getD i 0
          + (Config.mk (0, 0) (1 / 2) 3 1).circularRadii.getD (i + 1) 0) / 2
          = (Config.mk (0, 0) (1 / 2) 3 1).radius.getD i 0)) :=
  ⟨by constructor <;> norm_num,
    circular_radii_midpoint_spec (Config.mk (0, 0) (1 / 2) 3 1)
      (by constructor <;> norm_num)⟩

/-- C5: for every valid configuration, the Annular variant builds one
aperture per consecutive boundary pair (construction never fails); the
inner boundary of the innermost pair is non-positive exactly when
`min_radius ≤ radius_step / 2`, every later inner boundary is positive;
a pair with non-positive inner boundary yields a full circle of the outer
boundary (`min_radius + radius_step / 2` for the innermost bin) and every
other pair yields the annulus of its two boundaries. -/
theorem radial_apertures_spec (c : Config) (h : c.Valid) :
    (RadialProfile.apertures c).length = c.circularRadii.length - 1 ∧
    (c.circularRadii.getD 0 0 ≤ 0 ↔ c.min_radius ≤ c.radius_step / 2) ∧
    (∀ i : ℕ, 1 ≤ i → i < c.circularRadii.length - 1 →
      0 < c.circularRadii.getD i 0) ∧
    (∀ i : ℕ, i < c.circularRadii.length - 1 →
      (RadialProfile.apertures c).getD i (Aperture.circle (0, 0) 0)
        = if c.circularRadii.getD i 0 ≤ 0
          then Aperture.circle c.xycen (c.circularRadii.getD (i + 1) 0)
          else Aperture.annulus c.xycen (c.circularRadii.getD i 0)
            (c.circularRadii.getD (i + 1) 0)) ∧
    (c.min_radius ≤ c.radius_step / 2 →
      (RadialProfile.apertures c).getD 0 (Aperture.circle (0, 0) 0)
        = Aperture.circle c.xycen (c.min_radius + c.radius_step / 2)) := by
  obtain ⟨h0, hlt, hstep⟩ := h
  have hv : c.Valid := ⟨h0, hlt, hstep⟩
  have hlen : c.circularRadii.length = c.nsteps.toNat + 2 := circularRadii_length c hv
  have hb0 : c.circularRadii.getD 0 0 = c.min_radius - c.radius_step / 2 := by
    rw [circularRadii_getD c hv 0 (by omega)]
    norm_num
  have hb1 : c.circularRadii.getD 1 0 = c.min_radius + c.radius_step / 2 := by
    rw [circularRadii_getD c hv 1 (by omega)]
    push_cast
    ring
  refine ⟨?_, ?_, ?_, ?_, ?_⟩
  · rw [RadialProfile.apertures, List.length_map, List.length_range]
  · rw [hb0]
    constructor
    · intro hle; linarith
    · intro hle; linarith
  · intro i h1i hi
    rw [hlen] at hi
    rw [circularRadii_getD c hv i (by omega)]
    have hcast : (1 : ℚ) ≤ (i : ℚ) := by exact_mod_cast h1i
    nlinarith
  · intro i hi
    exact radial_apertures_getD c i hi
  · intro hmin
    rw [radial_apertures_getD c 0 (by omega), hb0, hb1, if_pos (by linarith)]

/-- C5 witness: the theorem applied to the concrete configuration
`(min_radius, max_radius, radius_step) = (0, 5/2, 1)`, whose innermost
bin collapses to a full circle. -/
theorem radial_apertures_spec_witness :
    (Config.mk (0, 0) 0 (5 / 2) 1).Valid ∧
    ((RadialProfile.apertures (Config.mk (0, 0) 0 (5 / 2) 1)).length
        = (Config.mk (0, 0) 0 (5 / 2) 1).circularRadii.length - 1 ∧
      ((Config.mk (0, 0) 0 (5 / 2) 1).circularRadii.getD 0 0 ≤ 0 ↔
        (Config.mk (0, 0) 0 (5 / 2) 1).min_radius
          ≤ (Config.mk (0, 0) 0 (5 / 2) 1).radius_step / 2) ∧
      (∀ i : ℕ, 1 ≤ i →
        i < (Config.mk (0, 0) 0 (5 / 2) 1).circularRadii.length - 1 →
        0 < (Config.mk (0, 0) 0 (5 / 2) 1).circularRadii.getD i 0) ∧
      (∀ i : ℕ, i < (Config.mk (0, 0) 0 (5 / 2) 1).circularRadii.length - 1 →
        (RadialProfile.apertures (Config.mk (0, 0) 0 (5 / 2) 1)).getD i
            (Aperture.circle (0, 0) 0)
          = if (Config.mk (0, 0) 0 (5 / 2) 1).circularRadii.getD i 0 ≤ 0
            then Aperture.circle (Config.mk (0, 0) 0 (5 / 2) 1).xycen
              ((Config.mk (0, 0) 0 (5 / 2) 1).circularRadii.getD (i + 1) 0)
            else Aperture.annulus (Config.mk (0, 0) 0 (5 / 2) 1).xycen
              ((Config.mk (0, 0) 0 (5 / 2) 1).circularRadii.getD i 0)
              ((Config.mk (0, 0) 0 (5 / 2) 1).circularRadii.getD (i + 1) 0)) ∧
      ((Config.mk (0, 0) 0 (5 / 2) 1).min_radius
          ≤ (Config.mk (0, 0) 0 (5 / 2) 1).radius_step / 2 →
        (RadialProfile.apertures (Config.mk (0, 0) 0 (5 / 2) 1)).getD 0
            (Aperture.circle (0, 0) 0)
          = Aperture.circle (Config.mk (0, 0) 0 (5 / 2) 1).xycen
            ((Config.mk (0, 0) 0 (5 / 2) 1).min_radius
              + (Config.mk (0, 0) 0 (5 / 2) 1).radius_step / 2))) :=
  ⟨by constructor <;> norm_num,
    radial_apertures_spec (Config.mk (0, 0) 0 (5 / 2) 1)
      (by constructor <;> norm_num)⟩

/-- C1: for the Annular (`RadialProfile`) variant, every profile value is
the first-difference flux divided by the first-difference area of the
cumulative boundary-region aggregates, and a zero area difference yields
a non-finite IEEE value (`inf`/`nan`) rather than an exception — the
division is total. -/
theorem radial_profile_spec (p : PhotTables) (i : ℕ)
    (hf : i + 1 < p.fluxes.length) (ha : i + 1 < p.areas.length) :
    (RadialProfile.profile p).getD i FpVal.nan
      = fpDivQ (p.fluxes.getD (i + 1) 0 - p.fluxes.getD i 0)
          (p.areas.getD (i + 1) 0 - p.areas.getD i 0) ∧
    (p.areas.getD (i + 1) 0 - p.areas.getD i 0 = 0 →
      ((RadialProfile.profile p).getD i FpVal.nan).isFinite = false) := by
  have hmain := profile_getD p i hf ha
  refine ⟨hmain, fun hz => ?_⟩
  rw [hmain, hz]
  exact fpDivQ_zero_not_finite _

/-- C1 witness: the theorem applied to the concrete photometry tables
`fluxes = [0, 3]`, `areas = [0, 2]` at index `0`. -/
theorem radial_profile_spec_witness :
    (0 + 1 < (PhotTables.mk [0, 3] [] [0, 2]).fluxes.length ∧
     0 + 1 < (PhotTables.mk [0, 3] [] [0, 2]).areas.length) ∧
    ((RadialProfile.profile (PhotTables.mk [0, 3] [] [0, 2])).getD 0 FpVal.nan
        = fpDivQ ((PhotTables.mk [0, 3] [] [0, 2]).fluxes.getD (0 + 1) 0
            - (PhotTables.mk [0, 3] [] [0, 2]).fluxes.getD 0 0)
          ((PhotTables.mk [0, 3] [] [0, 2]).areas.getD (0 + 1) 0
            - (PhotTables.mk [0, 3] [] [0, 2]).areas.getD 0 0) ∧
      ((PhotTables.mk [0, 3] [] [0, 2]).areas.getD (0 + 1) 0
          - (PhotTables.mk [0, 3] [] [0, 2]).areas.getD 0 0 = 0 →
        ((RadialProfile.profile (PhotTables.mk [0, 3] [] [0, 2])).getD 0
            FpVal.nan).isFinite = false)) :=
  ⟨⟨by simp, by simp⟩, radial_profile_spec (PhotTables.mk [0, 3] [] [0, 2]) 0
    (by simp) (by simp)⟩

/-- C2: for the Annular variant, with an error array supplied every
profile-error value is `sqrt(cumfluxerr_{i+1}^2 - cumfluxerr_i^2)` divided
by the first-difference area (with the same divide-by-zero suppression);
with no error array the profile error is the raw finite-differenced
`_fluxerr` sequence, not divided by area. -/
theorem radial_profile_error_spec :
    (∀ p : PhotTables,
      RadialProfile.profile_error false p
        = (npDiff (p.fluxerrs.map fun x => x ^ 2)).map fpSqrt) ∧
    (∀ (p : PhotTables) (i : ℕ),
      i + 1 < p.fluxerrs.length → i + 1 < p.areas.length →
      (RadialProfile.profile_error true p).getD i FpVal.nan
        = fpDivF (fpSqrt (p.fluxerrs.getD (i + 1) 0 ^ 2 - p.fluxerrs.getD i 0 ^ 2))
            (p.areas.getD (i + 1) 0 - p.areas.getD i 0) ∧
      (p.areas.getD (i + 1) 0 - p.areas.getD i 0 = 0 →
        ((RadialProfile.profile_error true p).getD i FpVal.nan).isFinite
          = false)) := by
  constructor
  · intro p
    rfl
  · intro p i hf ha
    have h1 : i < (RadialProfile.fluxerr p).length := by
      rw [RadialProfile.fluxerr, List.length_map, npDiff_length, List.length_map]
      omega
    have h2 : i < (RadialProfile.area p).length := by
      rw [RadialProfile.area, npDiff_length]
      omega
    have hpe : RadialProfile.profile_error true p
        = List.zipWith fpDivF (RadialProfile.fluxerr p) (RadialProfile.area p) := by
      rw [RadialProfile.profile_error, if_neg (by decide)]
    have hmain : (RadialProfile.profile_error true p).getD i FpVal.nan
        = fpDivF (fpSqrt (p.fluxerrs.getD (i + 1) 0 ^ 2 - p.fluxerrs.getD i 0 ^ 2))
            (p.areas.getD (i + 1) 0 - p.areas.getD i 0) := by
      rw [hpe, getD_zipWith _ _ _ i FpVal.nan 0 _ h1 h2, fluxerr_getD p i hf,
          area_getD p i ha]
    exact ⟨hmain, fun hz => by rw [hmain, hz]; exact fpDivF_zero_not_finite _⟩

/-- C2 witness: the no-error branch at `fluxerrs = [1, 2]` and the
error-supplied branch at `fluxerrs = [3, 5]`, `areas = [0, 2]`, index 0. -/
theorem radial_profile_error_spec_witness :
    (RadialProfile.profile_error false (PhotTables.mk [] [1, 2] [])
      = (npDiff ((PhotTables.mk [] [1, 2] []).fluxerrs.map fun x => x ^ 2)).map
          fpSqrt) ∧
    (0 + 1 < (PhotTables.mk [] [3, 5] [0, 2]).fluxerrs.length ∧
     0 + 1 < (PhotTables.mk [] [3, 5] [0, 2]).areas.length) ∧
    ((RadialProfile.profile_error true (PhotTables.mk [] [3, 5] [0, 2])).getD 0
          FpVal.nan
        = fpDivF
            (fpSqrt ((PhotTables.mk [] [3, 5] [0, 2]).fluxerrs.getD (0 + 1) 0 ^ 2
              - (PhotTables.mk [] [3, 5] [0, 2]).fluxerrs.getD 0 0 ^ 2))
            ((PhotTables.mk [] [3, 5] [0, 2]).areas.getD (0 + 1) 0
              - (PhotTables.mk [] [3, 5] [0, 2]).areas.getD 0 0) ∧
      ((PhotTables.mk [] [3, 5] [0, 2]).areas.getD (0 + 1) 0
          - (PhotTables.mk [] [3, 5] [0, 2]).areas.getD 0 0 = 0 →
        ((RadialProfile.profile_error true (PhotTables.mk [] [3, 5] [0, 2])).getD 0
            FpVal.nan).isFinite = false)) :=
  ⟨radial_profile_error_spec.1 (PhotTables.mk [] [1, 2] []),
    ⟨by simp, by simp⟩,
    radial_profile_error_spec.2 (PhotTables.mk [] [3, 5] [0, 2]) 0
      (by simp) (by simp)⟩

/-- C9: for every prefix of the Annular profile in which all annulus
areas are nonzero, the cumulative sum of `profile_i * area_i` telescopes
to `cumflux_k - cumflux_0`, the difference of Growth-style cumulative
fluxes at the corresponding boundary radii (exact in the rational model,
hence within floating-point tolerance). -/
theorem radial_growth_consistency (p : PhotTables) (k : ℕ)
    (hkf : k < p.fluxes.length) (hka : k < p.areas.length)
    (hnz : ∀ i : ℕ, i < k → p.areas.getD (i + 1) 0 - p.areas.getD i 0 ≠ 0) :
    ∑ i ∈ Finset.range k,
        ((RadialProfile.profile p).getD i FpVal.nan).toRat
          * (RadialProfile.area p).getD i 0
      = p.fluxes.getD k 0 - p.fluxes.getD 0 0 := by
  revert hkf hka hnz
  induction k with
  | zero =>
      intro _ _ _
      simp
  | succ k ih =>
      intro hkf hka hnz
      have hd : p.areas.getD (k + 1) 0 - p.areas.getD k 0 ≠ 0 :=
        hnz k (Nat.lt_succ_self k)
      have hterm : ((RadialProfile.profile p).getD k FpVal.nan).toRat
            * (RadialProfile.area p).getD k 0
          = p.fluxes.getD (k + 1) 0 - p.fluxes.getD k 0 := by
        rw [profile_getD p k hkf hka, area_getD p k hka, fpDivQ, if_pos hd]
        simp only [FpVal.toRat]
        exact div_mul_cancel₀ _ hd
      rw [Finset.sum_range_succ, hterm,
          ih (by omega) (by omega) fun i hi => hnz i (by omega)]
      ring

/-- C9 witness: the theorem applied to `fluxes = [0, 3, 10]`,
`areas = [0, 1, 3]` with prefix length `k = 2`. -/
theorem radial_growth_consistency_witness :
    (2 < (PhotTables.mk [0, 3, 10] [] [0, 1, 3]).fluxes.length ∧
     2 < (PhotTables.mk [0, 3, 10] [] [0, 1, 3]).areas.length ∧
     ∀ i : ℕ, i < 2 →
       (PhotTables.mk [0, 3, 10] [] [0, 1, 3]).areas.getD (i + 1) 0
         - (PhotTables.mk [0, 3, 10] [] [0, 1, 3]).areas.getD i 0 ≠ 0) ∧
    ∑ i ∈ Finset.range 2,
        ((RadialProfile.profile (PhotTables.mk [0, 3, 10] [] [0, 1, 3])).getD i
            FpVal.nan).toRat
          * (RadialProfile.area (PhotTables.mk [0, 3, 10] [] [0, 1, 3])).getD i 0
      = (PhotTables.mk [0, 3, 10] [] [0, 1, 3]).fluxes.getD 2 0
        - (PhotTables.mk [0, 3, 10] [] [0, 1, 3]).fluxes.getD 0 0 :=
  ⟨⟨by simp, by simp, by
      intro i hi
      interval_cases i <;>
        norm_num [List.getD_cons_zero, List.getD_cons_succ]⟩,
    radial_growth_consistency (PhotTables.mk [0, 3, 10] [] [0, 1, 3]) 2
      (by simp) (by simp) (by
        intro i hi
        interval_cases i <;>
          norm_num [List.getD_cons_zero, List.getD_cons_succ])⟩

theorem shapeMismatch_iff (d : ℕ × ℕ) (o : Option (ℕ × ℕ)) :
    shapeMismatch d o ↔ ∃ s, o = some s ∧ s ≠ d := by
  cases o with
  | none => simp [shapeMismatch]
  | some s => simp [shapeMismatch]

/-- C8: construction raises a configuration error if and only if
`min_radius` or `max_radius` is negative, or `min_radius ≥ max_radius`,
or `radius_step ≤ 0`, or a supplied error or mask shape differs from the
data shape; equivalently, construction succeeds exactly when none of
these hold (mismatched shapes are never accepted). -/
theorem init_ok_iff (dataShape : ℕ × ℕ) (errorShape maskShape : Option (ℕ × ℕ))
    (min_radius max_radius radius_step : ℚ) :
    ProfileBase.init dataShape errorShape maskShape min_radius max_radius
        radius_step = Except.ok ()
      ↔ ¬(min_radius < 0 ∨ max_radius < 0 ∨ min_radius ≥ max_radius ∨
          radius_step ≤ 0 ∨ (∃ s, errorShape = some s ∧ s ≠ dataShape) ∨
          (∃ s, maskShape = some s ∧ s ≠ dataShape)) := by
  rw [ProfileBase.init]
  by_cases h1 : min_radius < 0 ∨ max_radius < 0
  · rw [if_pos h1]
    exact iff_of_false (by simp) (by tauto)
  · rw [if_neg h1]
    by_cases h2 : min_radius ≥ max_radius
    · rw [if_pos h2]
      exact iff_of_false (by simp) (by tauto)
    · rw [if_neg h2]
      by_cases h3 : radius_step ≤ 0
      · rw [if_pos h3]
        exact iff_of_false (by simp) (by tauto)
      · rw [if_neg h3]
        by_cases h4 : shapeMismatch dataShape errorShape
        · rw [if_pos h4]
          rw [shapeMismatch_iff] at h4
          exact iff_of_false (by simp)
            (not_not_intro (Or.inr (Or.inr (Or.inr (Or.inr (Or.inl h4))))))
        · rw [if_neg h4]
          by_cases h5 : shapeMismatch dataShape maskShape
          · rw [if_pos h5]
            rw [shapeMismatch_iff] at h5
            exact iff_of_false (by simp)
              (not_not_intro (Or.inr (Or.inr (Or.inr (Or.inr (Or.inr h5))))))
          · rw [if_neg h5]
            rw [shapeMismatch_iff] at h4 h5
            refine iff_of_true rfl fun hbig => ?_
            rcases hbig with ha | hb | hc | hd | he | hf
            · exact h1 (Or.inl ha)
            · exact h1 (Or.inr hb)
            · exact h2 hc
            · exact h3 hd
            · exact h4 he
            · exact h5 hf

/-- C6 counterexample: `normalize('max')` on the profile `[-2, -4]`,
whose pre-normalization maximum `-2` is nonzero, rescales to `[1, 2]`,
whose maximum absolute value is `2`, not `1`. -/
theorem normalize_max_abs_counterexample :
    npMax ([-2, -4] : List ℚ) ≠ 0 ∧
    ProfileBase.normalize "max" (ProfState.mk [-2, -4] [])
      = NormResult.ok (ProfState.mk [1, 2] []) ∧
    npMax ((ProfState.mk ([1, 2] : List ℚ) []).profile.map fun q => |q|) ≠ 1 := by
  have hmax : npMax ([-2, -4] : List ℚ) = -2 := by
    rw [npMax, List.foldl_cons, List.foldl_nil, max_eq_left (by norm_num)]
  refine ⟨by rw [hmax]; norm_num, ?_, ?_⟩
  · rw [normalize_max_eq]
    show (if npMax ([-2, -4] : List ℚ) = 0 then _ else _) = _
    rw [hmax, if_neg (by norm_num)]
    norm_num [List.map_cons, List.map_nil]
  · show npMax (([1, 2] : List ℚ).map fun q => |q|) ≠ 1
    have habs : (([1, 2] : List ℚ).map fun q => |q|) = [1, 2] := by
      norm_num [List.map_cons, List.map_nil]
    rw [habs, npMax, List.foldl_cons, List.foldl_nil,
        max_eq_right (by norm_num)]
    norm_num

/-- C6 (amended): after `normalize('max')` on a profile whose
pre-normalization maximum is positive, both arrays are divided by that
maximum and the new maximum (signed) value of the profile is exactly 1
(the maximum absolute value can exceed 1 when some entry is more negative
than the maximum is positive, and a negative maximum does not rescale to
1); if the pre-normalization maximum is 0, the profile and profile_error
are left unchanged and a warning is emitted. -/
theorem normalize_max_spec_amended :
    (∀ s : ProfState, 0 < npMax s.profile →
      ProfileBase.normalize "max" s
          = NormResult.ok
            (ProfState.mk (s.profile.map fun q => q / npMax s.profile)
              (s.profile_error.map fun q => q / npMax s.profile)) ∧
      npMax (s.profile.map fun q => q / npMax s.profile) = 1) ∧
    (∀ s : ProfState, npMax s.profile = 0 →
      ProfileBase.normalize "max" s = NormResult.warned s) := by
  constructor
  · intro s h
    have hne : npMax s.profile ≠ 0 := ne_of_gt h
    refine ⟨by rw [normalize_max_eq, if_neg hne], ?_⟩
    rw [npMax_map_div _ _ (le_of_lt h), div_self hne]
  · intro s h0
    rw [normalize_max_eq, if_pos h0]

/-- C6 witness: the positive-maximum branch at profile `[2, 4]` with
error `[6]`, and the zero-maximum branch at profile `[0, -1]` with error
`[2]`. -/
theorem normalize_max_spec_amended_witness :
    (0 < npMax (ProfState.mk ([2, 4] : List ℚ) [6]).profile ∧
      (ProfileBase.normalize "max" (ProfState.mk [2, 4] [6])
          = NormResult.ok
            (ProfState.mk
              ((ProfState.mk ([2, 4] : List ℚ) [6]).profile.map fun q =>
                q / npMax (ProfState.mk ([2, 4] : List ℚ) [6]).profile)
              ((ProfState.mk ([2, 4] : List ℚ) [6]).profile_error.map fun q =>
                q / npMax (ProfState.mk ([2, 4] : List ℚ) [6]).profile)) ∧
        npMax ((ProfState.mk ([2, 4] : List ℚ) [6]).profile.map fun q =>
          q / npMax (ProfState.mk ([2, 4] : List ℚ) [6]).profile) = 1)) ∧
    (npMax (ProfState.mk ([0, -1] : List ℚ) [2]).profile = 0 ∧
      ProfileBase.normalize "max" (ProfState.mk [0, -1] [2])
        = NormResult.warned (ProfState.mk [0, -1] [2])) := by
  have h1 : 0 < npMax (ProfState.mk ([2, 4] : List ℚ) [6]).profile := by
    show (0 : ℚ) < npMax ([2, 4] : List ℚ)
    rw [npMax, List.foldl_cons, List.foldl_nil, max_eq_right (by norm_num)]
    norm_num
  have h2 : npMax (ProfState.mk ([0, -1] : List ℚ) [2]).profile = 0 := by
    show npMax ([0, -1] : List ℚ) = 0
    rw [npMax, List.foldl_cons, List.foldl_nil, max_eq_left (by norm_num)]
  exact ⟨⟨h1, normalize_max_spec_amended.1 (ProfState.mk [2, 4] [6]) h1⟩,
    ⟨h2, normalize_max_spec_amended.2 (ProfState.mk [0, -1] [2]) h2⟩⟩

/-- C7: `normalize(method)` raises an invalid-argument error for every
method string other than `'max'` and `'sum'`; when the computed
normalization constant is exactly zero it warns and leaves the state
unchanged (a no-op, not an error); otherwise it replaces `profile` and
`profile_error` by the originals divided by that constant. -/
theorem normalize_spec :
    (∀ (method : String) (s : ProfState), method ≠ "max" → method ≠ "sum" →
      ProfileBase.normalize method s
        = NormResult.invalid "invalid method, must be \"peak\" or \"integral\"") ∧
    (∀ s : ProfState, npMax s.profile = 0 →
      ProfileBase.normalize "max" s = NormResult.warned s) ∧
    (∀ s : ProfState, npSum s.profile = 0 →
      ProfileBase.normalize "sum" s = NormResult.warned s) ∧
    (∀ s : ProfState, npMax s.profile ≠ 0 →
      ProfileBase.normalize "max" s
        = NormResult.ok
          (ProfState.mk (s.profile.map fun q => q / npMax s.profile)
            (s.profile_error.map fun q => q / npMax s.profile))) ∧
    (∀ s : ProfState, npSum s.profile ≠ 0 →
      ProfileBase.normalize "sum" s
        = NormResult.ok
          (ProfState.mk (s.profile.map fun q => q / npSum s.profile)
            (s.profile_error.map fun q => q / npSum s.profile))) :=
  ⟨fun m s h1 h2 => normalize_other_eq m s h1 h2,
    fun s h0 => by rw [normalize_max_eq, if_pos h0],
    fun s h0 => by rw [normalize_sum_eq, if_pos h0],
    fun s hne => by rw [normalize_max_eq, if_neg hne],
    fun s hne => by rw [normalize_sum_eq, if_neg hne]⟩

/-- C7 witness: the invalid method `'mean'`, the zero-constant branches at
profiles `[0]` and `[1, -1]`, and the dividing branches at profile `[4]`
with error `[2]`. -/
theorem normalize_spec_witness :
    (("mean" : String) ≠ "max" ∧ ("mean" : String) ≠ "sum" ∧
      ProfileBase.normalize "mean" (ProfState.mk [1] [])
        = NormResult.invalid "invalid method, must be \"peak\" or \"integral\"") ∧
    (npMax (ProfState.mk ([0] : List ℚ) []).profile = 0 ∧
      ProfileBase.normalize "max" (ProfState.mk [0] [])
        = NormResult.warned (ProfState.mk [0] [])) ∧
    (npSum (ProfState.mk ([1, -1] : List ℚ) []).profile = 0 ∧
      ProfileBase.normalize "sum" (ProfState.mk [1, -1] [])
        = NormResult.warned (ProfState.mk [1, -1] [])) ∧
    (npMax (ProfState.mk ([4] : List ℚ) [2]).profile ≠ 0 ∧
      ProfileBase.normalize "max" (ProfState.mk [4] [2])
        = NormResult.ok
          (ProfState.mk
            ((ProfState.mk ([4] : List ℚ) [2]).profile.map fun q =>
              q / npMax (ProfState.mk ([4] : List ℚ) [2]).profile)
            ((ProfState.mk ([4] : List ℚ) [2]).profile_error.map fun q =>
              q / npMax (ProfState.mk ([4] : List ℚ) [2]).profile))) ∧
    (npSum (ProfState.mk ([4] : List ℚ) [2]).profile ≠ 0 ∧
      ProfileBase.normalize "sum" (ProfState.mk [4] [2])
        = NormResult.ok
          (ProfState.mk
            ((ProfState.mk ([4] : List ℚ) [2]).profile.map fun q =>
              q / npSum (ProfState.mk ([4] : List ℚ) [2]).profile)
            ((ProfState.mk ([4] : List ℚ) [2]).profile_error.map fun q =>
              q / npSum (ProfState.mk ([4] : List ℚ) [2]).profile))) := by
  have hm1 : ("mean" : String) ≠ "max" := by decide
  have hm2 : ("mean" : String) ≠ "sum" := by decide
  have hz1 : npMax (ProfState.mk ([0] : List ℚ) []).profile = 0 := by
    show npMax ([0] : List ℚ) = 0
    rw [npMax, List.foldl_nil]
  have hz2 : npSum (ProfState.mk ([1, -1] : List ℚ) []).profile = 0 := by
    show npSum ([1, -1] : List ℚ) = 0
    norm_num [npSum]
  have hn1 : npMax (ProfState.mk ([4] : List ℚ) [2]).profile ≠ 0 := by
    show npMax ([4] : List ℚ) ≠ 0
    rw [npMax, List.foldl_nil]
    norm_num
  have hn2 : npSum (ProfState.mk ([4] : List ℚ) [2]).profile ≠ 0 := by
    show npSum ([4] : List ℚ) ≠ 0
    norm_num [npSum]
  exact ⟨⟨hm1, hm2, normalize_spec.1 "mean" (ProfState.mk [1] []) hm1 hm2⟩,
    ⟨hz1, normalize_spec.2.1 (ProfState.mk [0] []) hz1⟩,
    ⟨hz2, normalize_spec.2.2.1 (ProfState.mk [1, -1] []) hz2⟩,
    ⟨hn1, normalize_spec.2.2.2.1 (ProfState.mk [4] [2]) hn1⟩,
    ⟨hn2, normalize_spec.2.2.2.2 (ProfState.mk [4] [2]) hn2⟩⟩

/-- C10: after a successful `normalize('max')` with positive
pre-normalization maximum the new maximum is exactly 1, and after a
successful `normalize('sum')` with positive pre-normalization sum the
new sum is exactly 1, so a second identical call divides by 1 and leaves
`profile` and `profile_error` unchanged. -/
theorem normalize_idempotent :
    (∀ s t : ProfState, 0 < npMax s.profile →
      ProfileBase.normalize "max" s = NormResult.ok t →
      npMax t.profile = 1 ∧
      ProfileBase.normalize "max" t = NormResult.ok t) ∧
    (∀ s t : ProfState, 0 < npSum s.profile →
      ProfileBase.normalize "sum" s = NormResult.ok t →
      npSum t.profile = 1 ∧
      ProfileBase.normalize "sum" t = NormResult.ok t) := by
  constructor
  · intro s t h heq
    have hne : npMax s.profile ≠ 0 := ne_of_gt h
    rw [normalize_max_eq, if_neg hne] at heq
    have ht : t = ProfState.mk (s.profile.map fun q => q / npMax s.profile)
        (s.profile_error.map fun q => q / npMax s.profile) := by
      injection heq with h'
      exact h'.symm
    have hone : npMax t.profile = 1 := by
      rw [ht]
      show npMax (s.profile.map fun q => q / npMax s.profile) = 1
      rw [npMax_map_div _ _ (le_of_lt h), div_self hne]
    refine ⟨hone, ?_⟩
    rw [normalize_max_eq, hone, if_neg one_ne_zero]
    simp [div_one]
  · intro s t h heq
    have hne : npSum s.profile ≠ 0 := ne_of_gt h
    rw [normalize_sum_eq, if_neg hne] at heq
    have ht : t = ProfState.mk (s.profile.map fun q => q / npSum s.profile)
        (s.profile_error.map fun q => q / npSum s.profile) := by
      injection heq with h'
      exact h'.symm
    have hone : npSum t.profile = 1 := by
      rw [ht]
      show npSum (s.profile.map fun q => q / npSum s.profile) = 1
      rw [npSum_map_div, div_self hne]
    refine ⟨hone, ?_⟩
    rw [normalize_sum_eq, hone, if_neg one_ne_zero]
    simp [div_one]

/-- C10 witness: `normalize('max')` on profile `[2]`, error `[4]` and
`normalize('sum')` on profile `[4]`, error `[8]`, each producing
`([1], [2])`, on which the second identical call is the identity. -/
theorem normalize_idempotent_witness :
    (0 < npMax (ProfState.mk ([2] : List ℚ) [4]).profile ∧
      ProfileBase.normalize "max" (ProfState.mk [2] [4])
        = NormResult.ok (ProfState.mk [1] [2]) ∧
      npMax (ProfState.mk ([1] : List ℚ) [2]).profile = 1 ∧
      ProfileBase.normalize "max" (ProfState.mk [1] [2])
        = NormResult.ok (ProfState.mk [1] [2])) ∧
    (0 < npSum (ProfState.mk ([4] : List ℚ) [8]).profile ∧
      ProfileBase.normalize "sum" (ProfState.mk [4] [8])
        = NormResult.ok (ProfState.mk [1] [2]) ∧
      npSum (ProfState.mk ([1] : List ℚ) [2]).profile = 1 ∧
      ProfileBase.normalize "sum" (ProfState.mk [1] [2])
        = NormResult.ok (ProfState.mk [1] [2])) := by
  have hp1 : 0 < npMax (ProfState.mk ([2] : List ℚ) [4]).profile := by
    show (0 : ℚ) < npMax ([2] : List ℚ)
    rw [npMax, List.foldl_nil]
    norm_num
  have he1 : ProfileBase.normalize "max" (ProfState.mk [2] [4])
      = NormResult.ok (ProfState.mk [1] [2]) := by
    rw [normalize_max_eq]
    show (if npMax ([2] : List ℚ) = 0 then _ else _) = _
    rw [npMax, List.foldl_nil, if_neg (by norm_num)]
    norm_num [List.map_cons, List.map_nil]
  have hp2 : 0 < npSum (ProfState.mk ([4] : List ℚ) [8]).profile := by
    show (0 : ℚ) < npSum ([4] : List ℚ)
    norm_num [npSum]
  have he2 : ProfileBase.normalize "sum" (ProfState.mk [4] [8])
      = NormResult.ok (ProfState.mk [1] [2]) := by
    rw [normalize_sum_eq]
    show (if npSum ([4] : List ℚ) = 0 then _ else _) = _
    have hs : npSum ([4] : List ℚ) = 4 := by norm_num [npSum]
    rw [hs, if_neg (by norm_num)]
    norm_num [List.map_cons, List.map_nil]
  obtain ⟨ha, hb⟩ := normalize_idempotent.1 (ProfState.mk [2] [4])
    (ProfState.mk [1] [2]) hp1 he1
  obtain ⟨hc, hd⟩ := normalize_idempotent.2 (ProfState.mk [4] [8])
    (ProfState.mk [1] [2]) hp2 he2
  exact ⟨⟨hp1, he1, ha, hb⟩, ⟨hp2, he2, hc, hd⟩⟩

end Photutils
